/-
Verification of the animation/rendering core of the `evil-android` program
(`src/main.rs`, `src/platform.rs`) against its natural-language specification.

The Rust code is shallowly embedded: machine integers become `Nat`/`Int` with
explicit `% 2^32` (u32) and wrap-around casts where the source casts; `f32`/`f64`
values that the claims treat purely order-theoretically are modelled as `ℚ`;
fallible constructors return `Except`; the random generator is modelled as a
stream `Nat → Nat` of `next_u32` draws, reduced `% 2^32`, consumed in source
order.
-/
import Mathlib

set_option maxHeartbeats 1000000

namespace EvilAndroid

/-! ## Geometry and color data model (embedded_graphics types used by main.rs) -/

/-- `embedded_graphics::geometry::Point`: integer (i32) coordinates. -/
structure Point where
  x : Int
  y : Int
deriving DecidableEq

instance : Add Point := ⟨fun a b => ⟨a.x + b.x, a.y + b.y⟩⟩

/-- `embedded_graphics::geometry::Size`: u32 width/height. -/
structure Size where
  width : Nat
  height : Nat
deriving DecidableEq

/-- `embedded_graphics::primitives::Rectangle`: top-left corner plus size. -/
structure Rect where
  topLeft : Point
  size : Size
deriving DecidableEq

/-- `Rgb565` color: channels stored at 5/6/5 bits. We keep the three channel
values; `Rgb565::new` masks each argument to its channel width. -/
structure Rgb565 where
  r : Nat
  g : Nat
  b : Nat
deriving DecidableEq

instance : Inhabited Rgb565 := ⟨⟨0, 0, 0⟩⟩

/-- `Rgb565::new(r, g, b)`: masks each channel to its native width
(r and b to 5 bits, g to 6 bits). -/
def Rgb565.new (r g b : Nat) : Rgb565 :=
  ⟨r % 32, g % 64, b % 32⟩

/-- A raster image as used through the `OriginDimensions + GetPixel` trait
bounds of `MaskedImage` (e.g. `ImageRaw`): a width, a height, and a total
pixel lookup underlying the partial `GetPixel::pixel`. -/
structure Image (C : Type) where
  width : Nat
  height : Nat
  pixelAt : Int → Int → C

/-- `OriginDimensions::bounding_box`: a rectangle at the origin with the
image's size. -/
def Image.boundingBox {C : Type} (img : Image C) : Rect :=
  ⟨⟨0, 0⟩, ⟨img.width, img.height⟩⟩

/-- `GetPixel::pixel`: `Some` color inside the bounding box, `None` outside. -/
def Image.pixel {C : Type} (img : Image C) (p : Point) : Option C :=
  if 0 ≤ p.x ∧ p.x < (img.width : Int) ∧ 0 ≤ p.y ∧ p.y < (img.height : Int) then
    some (img.pixelAt p.x p.y)
  else
    none

/-! ## MaskedImage (main.rs lines 24-82) -/

/-- `MaskedImage`: a color image, a 1-bit mask image (`BinaryColor` modelled as
`Bool`, `true` = `On`), and a placement offset `pos`. -/
structure MaskedImage where
  color_image : Image Rgb565
  mask_image : Image Bool
  pos : Point

/-- The `bail!` message of `MaskedImage::new` (the Debug-formatted bounding
boxes interpolated by the source are elided from the model). -/
def dimensionMismatchMsg : String :=
  "inconsistent dimensions of color vs mask"

/-- `MaskedImage::new`: fails when the two images' bounding boxes differ,
otherwise produces the masked image. -/
def MaskedImage.new (color_image : Image Rgb565) (mask_image : Image Bool)
    (pos : Point) : Except String MaskedImage :=
  if color_image.boundingBox ≠ mask_image.boundingBox then
    .error dimensionMismatchMsg
  else
    .ok ⟨color_image, mask_image, pos⟩

/-- The integer list `a..b` (Rust half-open range), empty when `b ≤ a`. -/
def intRange (a b : Int) : List Int :=
  (List.range (b - a).toNat).map (fun i => a + i)

/-- `MaskedImage::draw` as the list of pixels it feeds to
`target.draw_iter`, in emission order.  Mirrors the source:
`x_range = bb.top_left.x..bb.bottom_right().unwrap().x` (half-open!),
`y_range = bb.top_left.y..=bb.bottom_right().unwrap().y` (inclusive),
iterated as `y_range.cartesian_product(x_range)`, keeping mask-on points.
`bottom_right()` is `top_left + size - (1,1)`; its `unwrap()` (panic on a
zero-sized image) and the two pixel `unwrap()`s are modelled as defaults,
which are never reached on in-bounds scans of nonempty images. -/
def MaskedImage.draw (mi : MaskedImage) : List (Point × Rgb565) :=
  let bb := mi.color_image.boundingBox
  let bottomRightX : Int := bb.topLeft.x + (bb.size.width : Int) - 1
  let bottomRightY : Int := bb.topLeft.y + (bb.size.height : Int) - 1
  let xs := intRange bb.topLeft.x bottomRightX
  let ys := intRange bb.topLeft.y (bottomRightY + 1)
  let points := ys.flatMap (fun y => xs.map (fun x => Point.mk x y))
  points.filterMap (fun p =>
    if (mi.mask_image.pixel p).getD false then
      some (p + mi.pos, (mi.color_image.pixel p).getD default)
    else
      none)

/-! ## Duration formatting (main.rs lines 154-176) -/

/-- `div_rem(a, b) = (a / b, a % b)`. -/
def divRem (a b : Nat) : Nat × Nat := (a / b, a % b)

/-- Rust's `{n:02}` formatting of the minute/second fields: zero-padded to
(at least) two digits. -/
def pad2 (n : Nat) : String :=
  if n < 10 then "0" ++ toString n else toString n

/-- The string-building tail of `format_duration`, factored out verbatim so
the unit decomposition can be talked about separately: each higher unit is
omitted when zero, minutes and seconds are always `{:02}`-padded. -/
def renderParts (years days hrs mins secs : Nat) : String :=
  let s := ""
  let s := if years > 0 then s ++ toString years ++ "y " else s
  let s := if days > 0 then s ++ toString days ++ "d " else s
  let s := if hrs > 0 then s ++ toString hrs ++ ":" else s
  s ++ pad2 mins ++ ":" ++ pad2 secs

/-- `format_duration`, on the duration's whole seconds (`d.as_secs()`):
successive `div_rem` by 60, 60, 24, 365, then rendering. -/
def formatDuration (totalSecs : Nat) : String :=
  let (mins, secs) := divRem totalSecs 60
  let (hrs, mins) := divRem mins 60
  let (days, hrs) := divRem hrs 24
  let (years, days) := divRem days 365
  renderParts years days hrs mins secs

/-! ## Brightness (platform.rs lines 6-19) -/

/-- `Brightness`: a clamped float, modelled over `ℚ`. -/
structure Brightness where
  val : ℚ
deriving DecidableEq

/-- Rust `f32::clamp(lo, hi)`: `lo` if below, `hi` if above, else unchanged. -/
def ratClamp (x lo hi : ℚ) : ℚ :=
  if x < lo then lo else if x > hi then hi else x

/-- `impl From<f32> for Brightness`: clamp to `[0.0, 1.0]`. -/
def Brightness.fromFloat (x : ℚ) : Brightness :=
  ⟨ratClamp x 0 1⟩

/-! ## Machine integers and the random stream -/

/-- `2^32`, the u32 modulus. -/
def u32Mod : Nat := 4294967296

/-- `2^31`. -/
def i32Half : Nat := 2147483648

/-- The `k`-th `rng.next_u32()` draw of the modelled generator: an arbitrary
stream of naturals reduced to u32 range. -/
def nextU32 (rng : Nat → Nat) (k : Nat) : Nat := rng k % u32Mod

/-- Rust `v as i32` on an unsigned value: reduce mod `2^32` and reinterpret
the high half as negative. -/
def i32OfNat (v : Nat) : Int :=
  if v % u32Mod < i32Half then ((v % u32Mod : Nat) : Int)
  else ((v % u32Mod : Nat) : Int) - (u32Mod : Int)

/-- Wrap an integer into i32 range (release-mode wrapping arithmetic). -/
def i32Wrap (z : Int) : Int :=
  (z + i32Half) % (u32Mod : Int) - i32Half

/-! ## Row-glitch engine (main.rs lines 194-298) -/

/-- `RowOffset`: a column offset clamped to the row width. -/
structure RowOffset where
  offset : Nat
  rowWidth : Nat
deriving DecidableEq

/-- `RowOffset::new(offset, fb)`: `row_width = fb.width()` (asserted `> 0` in
the source), `offset = offset.min(row_width)`. -/
def RowOffset.new (offset rowWidth : Nat) : RowOffset :=
  ⟨min offset rowWidth, rowWidth⟩

/-- `RowRange`: a half-open span of columns within one row.  Rust's `end`
field is spelled `stop` (`end` is a Lean keyword). -/
structure RowRange where
  start : Nat
  stop : Nat
  rowWidth : Nat
deriving DecidableEq

/-- `RowOffset::range_to(other)`: the min/max-ordered span, both endpoints
clamped to the row width. -/
def RowOffset.rangeTo (s : RowOffset) (other : Nat) : RowRange :=
  ⟨min (min s.offset other) s.rowWidth,
   min (max s.offset other) s.rowWidth,
   s.rowWidth⟩

/-- `RowRange::offset(rhs)`: shift both endpoints by `rhs`, clamping into
`[0, row_width]`.  The source's `isize::saturating_add` only saturates at the
isize limits, where the subsequent `.max(0)`/`.min(row_width)` clamp produces
the same result, so the saturation is not modelled separately. -/
def RowRange.offset (r : RowRange) (rhs : Int) : RowRange :=
  ⟨min (max ((r.start : Int) + rhs) 0).toNat r.rowWidth,
   min (max ((r.stop : Int) + rhs) 0).toNat r.rowWidth,
   r.rowWidth⟩

/-- `RowRange::to_range()` as the list of column indices `start..stop`. -/
def RowRange.toRange (r : RowRange) : List Nat :=
  List.range' r.start (r.stop - r.start)

/-- The pixel-by-pixel copy loop of `glitch`: for each `(src, dst)` pair in
order, `fb.data.set(row_index + dst, fb.data.get(row_index + src))`.  Reads
see earlier writes of the same loop, exactly as in the source.  `Vec`
indexing out of bounds (a panic in Rust) is modelled as a default read /
dropped write; the safety theorems show in-bounds inputs never reach it. -/
def glitchCopy {C : Type} [Inhabited C] (buf : List C) (rowIndex : Nat)
    (pairs : List (Nat × Nat)) : List C :=
  pairs.foldl (fun b p => b.set (rowIndex + p.2) (b.getD (rowIndex + p.1) default)) buf

/-- One iteration of `glitch`'s `for line in 0..fb.height()` loop, threading
the rng draw counter: decide `should_glitch` (1 draw); when glitching, draw
the shift then the two span endpoints (3 more draws, in source order),
build `src`/`dst`, and run the directional copy. -/
def glitchLine {C : Type} [Inhabited C] (width maxOffset : Nat)
    (rng : Nat → Nat) (line : Nat) (st : Nat × List C) : Nat × List C :=
  let k := st.1
  let buf := st.2
  let shouldGlitch := nextU32 rng k % 128 < 32
  if shouldGlitch then
    let r1 := nextU32 rng (k + 1) % width
    let r2 := nextU32 rng (k + 2) % width
    let r3 := nextU32 rng (k + 3) % width
    let offset : Int := i32Wrap (i32OfNat (r1 % maxOffset) - Int.tdiv (i32OfNat maxOffset) 2)
    let src := (RowOffset.new r2 width).rangeTo r3
    let dst := src.offset offset
    let rowIndex := line * width
    if offset < 0 then
      (k + 4, glitchCopy buf rowIndex (src.toRange.zip dst.toRange))
    else
      (k + 4, glitchCopy buf rowIndex ((src.toRange.zip dst.toRange).reverse))
  else
    (k + 1, buf)

/-- `glitch(fb, rng, max_offset)` on a framebuffer of `height` rows of
`width` pixels stored row-major in `buf`: early return when `max_offset`
is 0, otherwise process every line. -/
def glitch {C : Type} [Inhabited C] (width height : Nat) (buf : List C)
    (rng : Nat → Nat) (maxOffset : Nat) : List C :=
  if maxOffset = 0 then buf
  else ((List.range height).foldl (fun st line => glitchLine width maxOffset rng line st) (0, buf)).2

/-! ## Noise injector (main.rs lines 239-267) -/

/-- `Intensity`: a probability numerator out of `Intensity::MAX.0 = 128`. -/
structure Intensity where
  val : Nat
deriving DecidableEq

/-- `Intensity::MAX`. -/
def Intensity.MAX : Intensity := ⟨128⟩

/-- `impl From<usize> for Intensity`: clamp to `MAX`. -/
def Intensity.fromNat (v : Nat) : Intensity := ⟨min v Intensity.MAX.val⟩

/-- One iteration of `add_noise`'s index loop: one draw decides
`apply_noise` (`% 128 < intensity`); on success three more draws build the
random color (`% 32`, `% 64`, `% 32` — the native channel widths). -/
def addNoiseStep (rng : Nat → Nat) (intensity : Intensity) (idx : Nat)
    (st : Nat × List Rgb565) : Nat × List Rgb565 :=
  let k := st.1
  let buf := st.2
  let applyNoise := nextU32 rng k % Intensity.MAX.val < intensity.val
  if applyNoise then
    (k + 4, buf.set idx (Rgb565.new (nextU32 rng (k + 1) % 32)
                              (nextU32 rng (k + 2) % 64)
                              (nextU32 rng (k + 3) % 32)))
  else
    (k + 1, buf)

/-- `add_noise(fb, rng, intensity)`: visit every index `0..nr_elements`
(`n` = the framebuffer's element count, `width*height` = `buf.length`). -/
def addNoise (n : Nat) (buf : List Rgb565) (rng : Nat → Nat)
    (intensity : Intensity) : List Rgb565 :=
  ((List.range n).foldl (fun st idx => addNoiseStep rng intensity idx st) (0, buf)).2

/-! ## Draw-loop time exaggeration (main.rs lines 300-336) -/

/-- `FRAMES_PER_SHADE`. -/
def FRAMES_PER_SHADE : Nat := 16

/-- `UNEXAGGERATED_TIME_FRAMES = FRAMES_PER_SHADE * 8`. -/
def UNEXAGGERATED_TIME_FRAMES : Nat := FRAMES_PER_SHADE * 8

/-- The sentinel string of 28 nines emitted once the exaggeration blows up. -/
def sentinel : String := "9999999999999999999999999999"

/-- The per-frame exaggeration contribution: literally `0` before the
threshold frame, and beyond it the f64 value
`EXAGGERATION_BASE.powf(v.powf(EXAGGERATION_FACTOR))`, which the model takes
as an abstract parameter `contrib` (its float computation is opaque; every
claim quantifies over it). -/
def frameExaggeration (contrib : ℚ) (currFrame : Nat) : ℚ :=
  if currFrame < UNEXAGGERATED_TIME_FRAMES then 0 else contrib

/-- The displayed string and updated glitchiness of one frame of `draw_loop`:
when the exaggeration is below `1e15`, format elapsed-plus-exaggeration
seconds (glitchiness unchanged); otherwise emit the sentinel and increment
glitchiness.  `elapsed` is `curr_time - start_time` in seconds. -/
def frameDisplay (contrib : ℚ) (currFrame : Nat) (elapsed : ℚ)
    (glitchiness : Nat) : String × Nat :=
  let exaggeration := frameExaggeration contrib currFrame
  if exaggeration < 10 ^ 15 then
    (formatDuration (elapsed + exaggeration).floor.toNat, glitchiness)
  else
    (sentinel, glitchiness + 1)

/-! ## List update helpers -/

theorem getD_set_eq {α : Type} (l : List α) (i : Nat) (a d : α)
    (h : i < l.length) : (l.set i a).getD i d = a := by
  simp [List.getD_eq_getElem?_getD, List.getElem?_set, h]

theorem getD_set_ne {α : Type} (l : List α) {i j : Nat} (a d : α)
    (h : i ≠ j) : (l.set i a).getD j d = l.getD j d := by
  simp [List.getD_eq_getElem?_getD, List.getElem?_set, h]

/-! ## Properties of the copy loop -/

theorem glitchCopy_nil {C : Type} [Inhabited C] (buf : List C) (rI : Nat) :
    glitchCopy buf rI [] = buf := rfl

theorem glitchCopy_cons {C : Type} [Inhabited C] (buf : List C) (rI : Nat)
    (p : Nat × Nat) (ps : List (Nat × Nat)) :
    glitchCopy buf rI (p :: ps) =
      glitchCopy (buf.set (rI + p.2) (buf.getD (rI + p.1) default)) rI ps := rfl

theorem glitchCopy_append {C : Type} [Inhabited C] (buf : List C) (rI : Nat)
    (l1 l2 : List (Nat × Nat)) :
    glitchCopy buf rI (l1 ++ l2) = glitchCopy (glitchCopy buf rI l1) rI l2 :=
  List.foldl_append _ _ _ _

theorem glitchCopy_length {C : Type} [Inhabited C] (pairs : List (Nat × Nat)) :
    ∀ (buf : List C) (rI : Nat), (glitchCopy buf rI pairs).length = buf.length := by
  induction pairs with
  | nil => intro buf rI; rfl
  | cons p ps ih =>
    intro buf rI
    rw [glitchCopy_cons, ih, List.length_set]

/-- The copy loop leaves every index that is not a destination unchanged. -/
theorem glitchCopy_getD_of_forall_ne {C : Type} [Inhabited C]
    (pairs : List (Nat × Nat)) :
    ∀ (buf : List C) (rI j : Nat), (∀ p ∈ pairs, rI + p.2 ≠ j) →
      (glitchCopy buf rI pairs).getD j default = buf.getD j default := by
  induction pairs with
  | nil => intro buf rI j _; rfl
  | cons p ps ih =>
    intro buf rI j h
    rw [glitchCopy_cons, ih _ _ _ (fun q hq => h q (List.mem_cons_of_mem _ hq))]
    exact getD_set_ne _ _ _ (h p (List.mem_cons_self _ _))

/-- The copy loop changes the buffer only inside the row window
`[rI, rI + w)` whenever every destination column is below `w`. -/
theorem glitchCopy_frame {C : Type} [Inhabited C] (buf : List C) (rI : Nat)
    (pairs : List (Nat × Nat)) (w : Nat) (hb : ∀ p ∈ pairs, p.2 < w) :
    ∀ j, (glitchCopy buf rI pairs).getD j default ≠ buf.getD j default →
      rI ≤ j ∧ j < rI + w := by
  intro j hj
  by_contra hc
  exact hj (glitchCopy_getD_of_forall_ne pairs buf rI j
    (fun p hp => by have := hb p hp; omega))

/-! ## The arithmetic pair list produced by zipping the two spans -/

/-- `(s, d), (s+1, d+1), …, (s+n-1, d+n-1)`. -/
def pairsList (s d n : Nat) : List (Nat × Nat) :=
  (List.range n).map (fun i => (s + i, d + i))

theorem pairsList_succ (s d n : Nat) :
    pairsList s d (n + 1) = pairsList s d n ++ [(s + n, d + n)] := by
  simp [pairsList, List.range_succ]

theorem pairsList_succ_reverse (s d n : Nat) :
    (pairsList s d (n + 1)).reverse = (s + n, d + n) :: (pairsList s d n).reverse := by
  rw [pairsList_succ]
  simp

theorem mem_pairsList {p : Nat × Nat} {s d n : Nat} (h : p ∈ pairsList s d n) :
    ∃ j, j < n ∧ p = (s + j, d + j) := by
  simp only [pairsList, List.mem_map, List.mem_range] at h
  obtain ⟨j, hj, rfl⟩ := h
  exact ⟨j, hj, rfl⟩

theorem pairsList_cons (s d k : Nat) :
    pairsList s d (k + 1) = (s, d) :: pairsList (s + 1) (d + 1) k := by
  simp only [pairsList, List.range_succ_eq_map, List.map_cons, Nat.add_zero,
    List.map_map]
  congr 1
  apply List.map_congr_left
  intro i _
  simp only [Function.comp_apply, Prod.mk.injEq]
  omega

/-- Zipping two half-open ranges gives the arithmetic pair list, truncated to
the shorter span (Rust `Iterator::zip` semantics). -/
theorem zip_range'_eq_pairsList :
    ∀ (a s d b : Nat), (List.range' s a).zip (List.range' d b) = pairsList s d (min a b) := by
  intro a
  induction a with
  | zero => intro s d b; simp [pairsList]
  | succ n ih =>
    intro s d b
    cases b with
    | zero => simp [pairsList]
    | succ m =>
      rw [List.range'_succ, List.range'_succ, List.zip_cons_cons, ih (s + 1) (d + 1) m,
        Nat.succ_min_succ, pairsList_cons]

/-! ## The two directional copies implement memmove semantics -/

/-- Forward (low-to-high) copy, used when the shift is negative: when the
destination base does not exceed the source base, every destination pixel
receives the value the corresponding source pixel had before the copy. -/
theorem glitchCopy_pairsList_fwd {C : Type} [Inhabited C] :
    ∀ (n s d rI : Nat) (buf : List C), d ≤ s → rI + s + n ≤ buf.length →
      ∀ i, i < n →
        (glitchCopy buf rI (pairsList s d n)).getD (rI + (d + i)) default
          = buf.getD (rI + (s + i)) default := by
  intro n
  induction n with
  | zero => intro s d rI buf _ _ i hi; omega
  | succ m ih =>
    intro s d rI buf hds hlen i hi
    rw [pairsList_succ, glitchCopy_append]
    have hBlen : (glitchCopy buf rI (pairsList s d m)).length = buf.length :=
      glitchCopy_length _ _ _
    have hread : (glitchCopy buf rI (pairsList s d m)).getD (rI + (s + m)) default
        = buf.getD (rI + (s + m)) default := by
      apply glitchCopy_getD_of_forall_ne
      intro p hp
      obtain ⟨j, hj, rfl⟩ := mem_pairsList hp
      omega
    rcases Nat.lt_succ_iff_lt_or_eq.mp hi with hlt | rfl
    · rw [glitchCopy_cons, glitchCopy_nil,
        getD_set_ne _ _ _ (by omega : rI + (d + m) ≠ rI + (d + i))]
      exact ih s d rI buf hds (by omega) i hlt
    · rw [glitchCopy_cons, glitchCopy_nil,
        getD_set_eq _ _ _ _ (by omega), hread]

/-- Backward (high-to-low) copy, used when the shift is non-negative: when
the source base does not exceed the destination base, every destination
pixel receives the value the corresponding source pixel had before the
copy. -/
theorem glitchCopy_pairsList_bwd {C : Type} [Inhabited C] :
    ∀ (n s d rI : Nat) (buf : List C), s ≤ d → rI + d + n ≤ buf.length →
      ∀ i, i < n →
        (glitchCopy buf rI (pairsList s d n).reverse).getD (rI + (d + i)) default
          = buf.getD (rI + (s + i)) default := by
  intro n
  induction n with
  | zero => intro s d rI buf _ _ i hi; omega
  | succ m ih =>
    intro s d rI buf hsd hlen i hi
    rw [pairsList_succ_reverse, glitchCopy_cons]
    rcases Nat.lt_succ_iff_lt_or_eq.mp hi with hlt | rfl
    · rw [ih s d rI _ hsd (by rw [List.length_set]; omega) i hlt]
      exact getD_set_ne _ _ _ (by omega)
    · rw [glitchCopy_getD_of_forall_ne _ _ _ _ ?bound]
      case bound =>
        intro p hp
        rw [List.mem_reverse] at hp
        obtain ⟨j, hj, rfl⟩ := mem_pairsList hp
        omega
      exact getD_set_eq _ _ _ _ (by omega)

/-! ## RowRange invariants -/

theorem rangeTo_start_le_stop (ro : RowOffset) (other : Nat) :
    (ro.rangeTo other).start ≤ (ro.rangeTo other).stop := by
  simp only [RowOffset.rangeTo]
  omega

theorem rangeTo_stop_le (ro : RowOffset) (other : Nat) :
    (ro.rangeTo other).stop ≤ ro.rowWidth := by
  simp only [RowOffset.rangeTo]
  omega

theorem offset_start_le_stop (r : RowRange) (rhs : Int) (h : r.start ≤ r.stop) :
    (r.offset rhs).start ≤ (r.offset rhs).stop := by
  simp only [RowRange.offset]
  omega

theorem offset_stop_le (r : RowRange) (rhs : Int) :
    (r.offset rhs).stop ≤ r.rowWidth := by
  simp only [RowRange.offset]
  omega

/-- A negative shift never moves the span start to the right. -/
theorem offset_start_le_of_neg (r : RowRange) (rhs : Int) (h : rhs < 0) :
    (r.offset rhs).start ≤ r.start := by
  simp only [RowRange.offset]
  omega

/-- A non-negative shift never moves the span start to the left (the start
is already within the row). -/
theorem le_offset_start_of_nonneg (r : RowRange) (rhs : Int) (h : 0 ≤ rhs)
    (hw : r.start ≤ r.rowWidth) : r.start ≤ (r.offset rhs).start := by
  simp only [RowRange.offset]
  omega

/-- Every member of `to_range()` is below the span's end. -/
theorem mem_toRange_lt (r : RowRange) (m : Nat) (h : m ∈ r.toRange) :
    m < r.stop := by
  simp only [RowRange.toRange, List.mem_range'] at h
  omega

theorem toRange_eq_range' (r : RowRange) :
    r.toRange = List.range' r.start (r.stop - r.start) := rfl

/-! ## Concrete example images (the spec's 2×2 draw test) -/

/-- A solid 2×2 color image. -/
def exColor : Image Rgb565 := ⟨2, 2, fun _ _ => ⟨31, 0, 0⟩⟩

/-- A 2×2 mask with row-major pattern [on, off, off, on]. -/
def exMask : Image Bool := ⟨2, 2, fun x y => x == y⟩

/-- A 3×2 mask, dimension-mismatched against `exColor`. -/
def exMaskWide : Image Bool := ⟨3, 2, fun x y => x == y⟩

/-! ## Theorems -/

/-- C1: `MaskedImage::draw` iterates `x` over the half-open range
`bb.top_left.x..bb.bottom_right().unwrap().x` while `y` uses the inclusive
range, so the rightmost column of the bounding box is never visited.  On the
spec's own test — a 2×2 mask with pattern [on, off, off, on] and a solid
color image drawn at offset (0,0) — the code emits only the single pixel at
(0,0): the mask-on coordinate (1,1) is silently dropped, contradicting the
claim that exactly the two on positions receive the color values. -/
theorem maskedImage_draw_drops_last_column :
    MaskedImage.new exColor exMask ⟨0, 0⟩ = .ok ⟨exColor, exMask, ⟨0, 0⟩⟩ ∧
    exMask.pixelAt 0 0 = true ∧ exMask.pixelAt 1 1 = true ∧
    exMask.pixelAt 1 0 = false ∧ exMask.pixelAt 0 1 = false ∧
    MaskedImage.draw ⟨exColor, exMask, ⟨0, 0⟩⟩ = [(⟨0, 0⟩, ⟨31, 0, 0⟩)] :=
  ⟨rfl, rfl, rfl, rfl, rfl, by decide⟩

/-- C3: `glitch` with `max_offset = 0` returns immediately, leaving every
pixel of the buffer unchanged, for every buffer and random stream. -/
theorem glitch_maxOffset_zero_identity {C : Type} [Inhabited C]
    (width height : Nat) (buf : List C) (rng : Nat → Nat) :
    glitch width height buf rng 0 = buf := by
  simp [glitch]

/-- C6: `MaskedImage::new` succeeds (returning the masked image, built from
the given parts) exactly when the color and mask bounding boxes are equal,
and fails with the dimension-mismatch error otherwise. -/
theorem maskedImage_new_dimension_check (c : Image Rgb565) (m : Image Bool)
    (pos : Point) :
    (c.boundingBox = m.boundingBox →
      MaskedImage.new c m pos = .ok ⟨c, m, pos⟩) ∧
    (c.boundingBox ≠ m.boundingBox →
      MaskedImage.new c m pos = .error dimensionMismatchMsg) := by
  constructor <;> intro h <;> simp [MaskedImage.new, h]

/-- Witness for C6 at concrete images: equal 2×2 boxes succeed, a 2×2 color
with a 3×2 mask fails with the dimension-mismatch error. -/
theorem maskedImage_new_dimension_check_witness :
    MaskedImage.new exColor exMask ⟨0, 0⟩ = .ok ⟨exColor, exMask, ⟨0, 0⟩⟩ ∧
    MaskedImage.new exColor exMaskWide ⟨0, 0⟩ = .error dimensionMismatchMsg :=
  ⟨(maskedImage_new_dimension_check exColor exMask ⟨0, 0⟩).1 (by decide),
   (maskedImage_new_dimension_check exColor exMaskWide ⟨0, 0⟩).2 (by decide)⟩

/-- C7: the exaggeration threshold is `16 * 8 = 128` frames; the sentinel is
exactly 28 nines; below the threshold the contribution is exactly 0 and the
real elapsed time is formatted with glitchiness unchanged; whenever the
contribution reaches `1e15` the output is the sentinel and glitchiness
increments by exactly 1; below `1e15` it increments by 0.  The f64
contribution beyond the threshold is quantified as an arbitrary `contrib`. -/
theorem drawLoop_exaggeration_sentinel (contrib elapsed : ℚ) (g currFrame : Nat) :
    UNEXAGGERATED_TIME_FRAMES = 128 ∧
    sentinel.data = List.replicate 28 '9' ∧
    (currFrame < UNEXAGGERATED_TIME_FRAMES →
      frameExaggeration contrib currFrame = 0 ∧
      frameDisplay contrib currFrame elapsed g = (formatDuration elapsed.floor.toNat, g)) ∧
    (10 ^ 15 ≤ frameExaggeration contrib currFrame →
      frameDisplay contrib currFrame elapsed g = (sentinel, g + 1)) ∧
    (frameExaggeration contrib currFrame < 10 ^ 15 →
      (frameDisplay contrib currFrame elapsed g).2 = g) := by
  refine ⟨rfl, rfl, ?_, ?_, ?_⟩
  · intro h
    have he : frameExaggeration contrib currFrame = 0 := by
      simp [frameExaggeration, h]
    refine ⟨he, ?_⟩
    rw [frameDisplay, he]
    norm_num
  · intro h
    rw [frameDisplay, if_neg (not_lt.mpr h)]
  · intro h
    rw [frameDisplay, if_pos h]

/-- Witness for C7: frame 5 (below threshold) formats the real elapsed time
with glitchiness unchanged; a contribution of exactly `1e15` at frame 200
yields the sentinel and increments glitchiness from 5 to 6. -/
theorem drawLoop_exaggeration_sentinel_witness :
    frameDisplay 7 5 3 0 = (formatDuration (3 : ℚ).floor.toNat, 0) ∧
    frameDisplay (10 ^ 15) 200 3 5 = (sentinel, 6) :=
  ⟨((drawLoop_exaggeration_sentinel 7 3 0 5).2.2.1 (by norm_num [UNEXAGGERATED_TIME_FRAMES, FRAMES_PER_SHADE])).2,
   (drawLoop_exaggeration_sentinel (10 ^ 15) 3 5 200).2.2.2.1
     (by norm_num [frameExaggeration, UNEXAGGERATED_TIME_FRAMES, FRAMES_PER_SHADE])⟩

/-- `pad2` renders every value below 60 (all possible minute/second fields)
with exactly two characters. -/
theorem pad2_length_two : ∀ m : Nat, m < 60 → (pad2 m).length = 2 := by
  decide

/-- C8: the four duration formats claimed by the spec, and in general
`format_duration` always ends in `pad2 minutes ++ ":" ++ pad2 seconds`
(two-digit zero-padded fields) with higher units rendered by `renderParts`,
which omits each of years/days/hours when zero. -/
theorem formatDuration_examples :
    formatDuration 0 = "00:00" ∧
    formatDuration 90 = "01:30" ∧
    formatDuration 3661 = "1:01:01" ∧
    formatDuration 86520 = "1d 02:00" ∧
    ∀ n : Nat,
      formatDuration n =
        renderParts (n / 60 / 60 / 24 / 365) (n / 60 / 60 / 24 % 365)
          (n / 60 / 60 % 24) (n / 60 % 60) (n % 60) ∧
      (pad2 (n / 60 % 60)).length = 2 ∧ (pad2 (n % 60)).length = 2 := by
  refine ⟨by decide, by decide, by decide, by decide, fun n => ⟨rfl, ?_, ?_⟩⟩
  · exact pad2_length_two _ (Nat.mod_lt _ (by decide))
  · exact pad2_length_two _ (Nat.mod_lt _ (by decide))

/-- C10: `format_duration` computes the years component as total days
divided by exactly 365 (no leap-year handling): the rendered years equal
`⌊total_seconds / 31536000⌋`, and the rendered days component is always in
`[0, 364]`. -/
theorem formatDuration_fixed_year (n : Nat) :
    formatDuration n =
      renderParts (n / 31536000) (n / 86400 % 365) (n / 3600 % 24)
        (n / 60 % 60) (n % 60) ∧
    n / 86400 / 365 = n / 31536000 ∧
    n / 86400 % 365 ≤ 364 := by
  have h1 : n / 60 / 60 = n / 3600 := by omega
  have h2 : n / 3600 / 24 = n / 86400 := by omega
  have h3 : n / 86400 / 365 = n / 31536000 := by omega
  refine ⟨?_, by omega, by omega⟩
  show renderParts (n / 60 / 60 / 24 / 365) (n / 60 / 60 / 24 % 365)
      (n / 60 / 60 % 24) (n / 60 % 60) (n % 60) = _
  rw [h1, h2, h3]

/-- C4: the corrupting copy of `glitch` (lines 286-295): when the computed
shift `rhs` is negative the pairs are traversed low-to-high, otherwise
high-to-low (`.rev()`), and in both cases every destination pixel of the
(possibly truncated) zipped span ends up holding the value the corresponding
source pixel had before the copy began — memmove semantics, even when the
source and destination spans overlap within the row. -/
theorem glitch_copy_memmove {C : Type} [Inhabited C] (src : RowRange)
    (rhs : Int) (rI : Nat) (buf : List C)
    (h1 : src.start ≤ src.stop) (h2 : src.stop ≤ src.rowWidth)
    (hlen : rI + src.rowWidth ≤ buf.length) (i : Nat)
    (hi : i < min (src.stop - src.start)
        ((src.offset rhs).stop - (src.offset rhs).start)) :
    (glitchCopy buf rI
        (if rhs < 0 then src.toRange.zip (src.offset rhs).toRange
         else (src.toRange.zip (src.offset rhs).toRange).reverse)).getD
        (rI + ((src.offset rhs).start + i)) default
      = buf.getD (rI + (src.start + i)) default := by
  have hzip : src.toRange.zip (src.offset rhs).toRange
      = pairsList src.start (src.offset rhs).start
          (min (src.stop - src.start)
            ((src.offset rhs).stop - (src.offset rhs).start)) := by
    rw [toRange_eq_range', toRange_eq_range', zip_range'_eq_pairsList]
  have hds := offset_start_le_stop src rhs h1
  have hsw := offset_stop_le src rhs
  by_cases h : rhs < 0
  · rw [if_pos h, hzip]
    have hd : (src.offset rhs).start ≤ src.start := offset_start_le_of_neg src rhs h
    exact glitchCopy_pairsList_fwd _ _ _ _ _ hd (by omega) i hi
  · rw [if_neg h, hzip]
    have hd : src.start ≤ (src.offset rhs).start :=
      le_offset_start_of_nonneg src rhs (by omega) (by omega)
    exact glitchCopy_pairsList_bwd _ _ _ _ _ hd (by omega) i hi

/-- Witness for C4: row `[10,11,12,13]`, source span `[0,3)` shifted by `+1`
onto the overlapping destination `[1,4)`; destination pixel 2 receives the
pre-copy value of source pixel 1. -/
theorem glitch_copy_memmove_witness :
    (glitchCopy ([10, 11, 12, 13] : List Nat) 0
        (if (1 : Int) < 0 then
          (RowRange.mk 0 3 4).toRange.zip ((RowRange.mk 0 3 4).offset 1).toRange
         else
          ((RowRange.mk 0 3 4).toRange.zip
            ((RowRange.mk 0 3 4).offset 1).toRange).reverse)).getD
        (0 + (((RowRange.mk 0 3 4).offset 1).start + 1)) default
      = ([10, 11, 12, 13] : List Nat).getD (0 + (0 + 1)) default :=
  glitch_copy_memmove ⟨0, 3, 4⟩ 1 0 [10, 11, 12, 13]
    (by decide) (by decide) (by decide) 1 (by decide)

/-- One `glitch` line iteration preserves the buffer length and only changes
pixels inside the window `[line*width, line*width + width)` of the row being
processed. -/
theorem glitchLine_frame {C : Type} [Inhabited C] (width maxOffset : Nat)
    (rng : Nat → Nat) (line : Nat) (st : Nat × List C) :
    (glitchLine width maxOffset rng line st).2.length = st.2.length ∧
    ∀ j, (glitchLine width maxOffset rng line st).2.getD j default
        ≠ st.2.getD j default →
      line * width ≤ j ∧ j < line * width + width := by
  simp only [glitchLine]
  split
  · split
    · refine ⟨glitchCopy_length _ _ _, ?_⟩
      intro j hj
      refine glitchCopy_frame _ _ _ width ?_ j hj
      intro p hp
      have h1 := mem_toRange_lt _ _ (List.of_mem_zip hp).2
      exact lt_of_lt_of_le h1 (offset_stop_le _ _)
    · refine ⟨glitchCopy_length _ _ _, ?_⟩
      intro j hj
      refine glitchCopy_frame _ _ _ width ?_ j hj
      intro p hp
      rw [List.mem_reverse] at hp
      have h1 := mem_toRange_lt _ _ (List.of_mem_zip hp).2
      exact lt_of_lt_of_le h1 (offset_stop_le _ _)
  · exact ⟨rfl, fun j hj => absurd rfl hj⟩

/-- Folding `glitchLine` over a list of lines only changes pixels that lie
in the row window of one of the processed lines. -/
theorem glitch_fold_frame {C : Type} [Inhabited C] (width maxOffset : Nat)
    (rng : Nat → Nat) :
    ∀ (lines : List Nat) (st : Nat × List C),
      (lines.foldl (fun st line => glitchLine width maxOffset rng line st) st).2.length
        = st.2.length ∧
      ∀ j, (lines.foldl (fun st line => glitchLine width maxOffset rng line st) st).2.getD j default
          ≠ st.2.getD j default →
        ∃ line ∈ lines, line * width ≤ j ∧ j < line * width + width := by
  intro lines
  induction lines with
  | nil => intro st; exact ⟨rfl, fun j hj => absurd rfl hj⟩
  | cons l ls ih =>
    intro st
    rw [List.foldl_cons]
    obtain ⟨ihlen, ihframe⟩ := ih (glitchLine width maxOffset rng l st)
    obtain ⟨slen, sframe⟩ := glitchLine_frame width maxOffset rng l st
    refine ⟨ihlen.trans slen, ?_⟩
    intro j hj
    by_cases hmid :
        (ls.foldl (fun st line => glitchLine width maxOffset rng line st)
          (glitchLine width maxOffset rng l st)).2.getD j default
        = (glitchLine width maxOffset rng l st).2.getD j default
    · have hchg : (glitchLine width maxOffset rng l st).2.getD j default
          ≠ st.2.getD j default := by
        rw [← hmid]; exact hj
      obtain ⟨hb1, hb2⟩ := sframe j hchg
      exact ⟨l, List.mem_cons_self _ _, hb1, hb2⟩
    · obtain ⟨line, hm, hb⟩ := ihframe j hmid
      exact ⟨line, List.mem_cons_of_mem _ hm, hb⟩

/-- C2: the glitch engine's bounds safety, at three levels that do not
follow from length preservation.
(i) At the write level: for every pair of span-endpoint draws `a`, `b` and
every shift `rhs` (covering all random values and all `max_offset`s), every
`(src, dst)` column pair the copy loop would process — the zip of
`RowOffset::new(a, fb).range_to(b)` with its shifted image, exactly the
pairs `glitchLine` hands to `glitchCopy`, forward or reversed — has both its
read column and its written column inside `[0, row_width)`; so every write
lands at `row_index + d` with `d < row_width`, in the row being corrupted.
(ii) Per line: processing one line changes no pixel outside that line's
window `[line*width, line*width + width)`, whatever the draw-counter state.
(iii) For the whole `glitch` call: the buffer length is preserved and every
changed index lies inside the buffer and decomposes as `line*width + d`
with `line < height` and `d < width`. -/
theorem glitch_row_bounds {C : Type} [Inhabited C] (width height : Nat)
    (buf : List C) (rng : Nat → Nat) (maxOffset : Nat)
    (hlen : buf.length = width * height) :
    (∀ (a b : Nat) (rhs : Int) (p : Nat × Nat),
        p ∈ ((RowOffset.new a width).rangeTo b).toRange.zip
              (((RowOffset.new a width).rangeTo b).offset rhs).toRange →
        p.1 < width ∧ p.2 < width) ∧
    (∀ (line : Nat) (st : Nat × List C) (j : Nat),
        (glitchLine width maxOffset rng line st).2.getD j default
          ≠ st.2.getD j default →
        line * width ≤ j ∧ j < line * width + width) ∧
    (glitch width height buf rng maxOffset).length = buf.length ∧
    ∀ j, (glitch width height buf rng maxOffset).getD j default
        ≠ buf.getD j default →
      j < buf.length ∧ ∃ line, line < height ∧ ∃ d, d < width ∧ j = line * width + d := by
  refine ⟨?_, ?_, ?_⟩
  · intro a b rhs p hp
    obtain ⟨h1, h2⟩ := List.of_mem_zip hp
    constructor
    · exact lt_of_lt_of_le (mem_toRange_lt _ _ h1) (rangeTo_stop_le _ _)
    · exact lt_of_lt_of_le (mem_toRange_lt _ _ h2) (offset_stop_le _ _)
  · intro line st j hj
    exact (glitchLine_frame width maxOffset rng line st).2 j hj
  · rw [glitch]
    split
    · exact ⟨rfl, fun j hj => absurd rfl hj⟩
    · obtain ⟨hl, hf⟩ := glitch_fold_frame width maxOffset rng (List.range height) (0, buf)
      refine ⟨hl, ?_⟩
      intro j hj
      obtain ⟨line, hline, h1, h2⟩ := hf j hj
      rw [List.mem_range] at hline
      have h3 : j < (line + 1) * width := by rw [Nat.succ_mul]; omega
      have h4 : (line + 1) * width ≤ height * width :=
        Nat.mul_le_mul_right _ hline
      have h5 : j < buf.length := by
        rw [hlen, Nat.mul_comm]
        exact Nat.lt_of_lt_of_le h3 h4
      exact ⟨h5, line, hline, j - line * width, by omega, by omega⟩

/-- A concrete random stream for the C2 witness: line 0 glitches
(draw 0 → `0 % 128 < 32`), shift draw 0 gives offset `-1`, span draws 2 and 3
give source span `[2,3)`, so pixel 1 is overwritten with pixel 2's value. -/
def glitchRngW : Nat → Nat := fun k => [0, 0, 2, 3].getD k 0

/-- Witness for C2 on a 4×1 buffer `[0,1,2,3]` with `max_offset = 2`:
(i) the copy pair `(2, 1)` actually produced by draws `a = 2`, `b = 3` and
shift `-1` has both columns below the width 4; (ii) line 0's processing
changes index 1, which stays inside row 0's window; (iii) the full glitch
call changes index 1, which is inside the buffer and decomposes as
`line * 4 + d` with `line < 1`, `d < 4`. -/
theorem glitch_row_bounds_witness :
    ((2, 1) : Nat × Nat).1 < 4 ∧ ((2, 1) : Nat × Nat).2 < 4 ∧
    (0 * 4 ≤ 1 ∧ 1 < 0 * 4 + 4) ∧
    (1 < ([0, 1, 2, 3] : List Nat).length ∧
      ∃ line, line < 1 ∧ ∃ d, d < 4 ∧ 1 = line * 4 + d) :=
  have h := glitch_row_bounds 4 1 [0, 1, 2, 3] glitchRngW 2 (by decide)
  have hpair := h.1 2 3 (-1) (2, 1) (by decide)
  ⟨hpair.1, hpair.2,
   h.2.1 0 (0, [0, 1, 2, 3]) 1 (by decide),
   h.2.2.2 1 (by decide)⟩

/-- `add_noise` with Intensity 0: the per-pixel guard `draw % 128 < 0` never
fires; one iteration just advances the draw counter. -/
theorem addNoiseStep_zero (rng : Nat → Nat) (idx : Nat) (st : Nat × List Rgb565) :
    addNoiseStep rng (Intensity.fromNat 0) idx st = (st.1 + 1, st.2) := by
  simp [addNoiseStep, Intensity.fromNat, Intensity.MAX]

theorem addNoise_zero_fold (rng : Nat → Nat) :
    ∀ (L : List Nat) (st : Nat × List Rgb565),
      (L.foldl (fun st idx => addNoiseStep rng (Intensity.fromNat 0) idx st) st).2 = st.2 := by
  intro L
  induction L with
  | nil => intro st; rfl
  | cons x xs ih =>
    intro st
    rw [List.foldl_cons, addNoiseStep_zero]
    exact ih _

/-- Invariant of the `add_noise` loop at Intensity 128: after `m` indices,
the draw counter is `4*m` (each pixel consumed exactly its own four draws)
and pixel `j` holds the random color built from draws `4j+1..4j+3` for
`j < m`, the original color otherwise. -/
theorem addNoise_max_fold (rng : Nat → Nat) (buf : List Rgb565) :
    ∀ m : Nat,
      ((List.range m).foldl (fun st idx => addNoiseStep rng (Intensity.fromNat 128) idx st) (0, buf)).1 = 4 * m ∧
      ((List.range m).foldl (fun st idx => addNoiseStep rng (Intensity.fromNat 128) idx st) (0, buf)).2.length = buf.length ∧
      ∀ j, ((List.range m).foldl (fun st idx => addNoiseStep rng (Intensity.fromNat 128) idx st) (0, buf)).2.getD j default
        = if j < m ∧ j < buf.length then
            Rgb565.new (nextU32 rng (4 * j + 1) % 32) (nextU32 rng (4 * j + 2) % 64)
              (nextU32 rng (4 * j + 3) % 32)
          else buf.getD j default := by
  intro m
  induction m with
  | zero =>
    refine ⟨rfl, rfl, fun j => ?_⟩
    simp
  | succ p ih =>
    obtain ⟨ihk, ihlen, ihget⟩ := ih
    rw [List.range_succ, List.foldl_append, List.foldl_cons, List.foldl_nil]
    set S := (List.range p).foldl
      (fun st idx => addNoiseStep rng (Intensity.fromNat 128) idx st) (0, buf) with hS
    have hstep : addNoiseStep rng (Intensity.fromNat 128) p S
        = (S.1 + 4, S.2.set p (Rgb565.new (nextU32 rng (S.1 + 1) % 32)
            (nextU32 rng (S.1 + 2) % 64) (nextU32 rng (S.1 + 3) % 32))) := by
      have hguard : nextU32 rng S.1 % Intensity.MAX.val < (Intensity.fromNat 128).val :=
        Nat.mod_lt _ (by decide)
      rw [addNoiseStep, if_pos hguard]
    rw [hstep, ihk]
    refine ⟨by omega, by rw [List.length_set]; exact ihlen, ?_⟩
    intro j
    by_cases hj : j = p
    · subst hj
      by_cases hb : j < buf.length
      · rw [getD_set_eq _ _ _ _ (by rw [ihlen]; exact hb),
          if_pos ⟨Nat.lt_succ_self _, hb⟩]
      · rw [List.set_eq_of_length_le (by rw [ihlen]; omega), ihget,
          if_neg (by omega), if_neg (by omega)]
    · rw [getD_set_ne _ _ _ (by omega), ihget]
      by_cases hc : j < p ∧ j < buf.length
      · rw [if_pos hc, if_pos ⟨Nat.lt_succ_of_lt hc.1, hc.2⟩]
      · rw [if_neg hc, if_neg (fun h => hc ⟨by omega, h.2⟩)]

/-- C5: `add_noise` with Intensity 0 is the identity on every buffer for
every random stream; with Intensity 128 every pixel is replaced by the random
color built from that pixel's own three draws (draws `4i+1..4i+3`, the
decision and color depending on no other pixel's draws), whose red component
is in `[0,32)`, green in `[0,64)` and blue in `[0,32)`. -/
theorem addNoise_extremes (n : Nat) (buf : List Rgb565) (rng : Nat → Nat) :
    addNoise n buf rng (Intensity.fromNat 0) = buf ∧
    ∀ i, i < n → i < buf.length →
      (addNoise n buf rng (Intensity.fromNat 128)).getD i default
        = Rgb565.new (nextU32 rng (4 * i + 1) % 32) (nextU32 rng (4 * i + 2) % 64)
            (nextU32 rng (4 * i + 3) % 32) ∧
      ((addNoise n buf rng (Intensity.fromNat 128)).getD i default).r < 32 ∧
      ((addNoise n buf rng (Intensity.fromNat 128)).getD i default).g < 64 ∧
      ((addNoise n buf rng (Intensity.fromNat 128)).getD i default).b < 32 := by
  constructor
  · rw [addNoise]
    exact addNoise_zero_fold rng (List.range n) (0, buf)
  · intro i hin hib
    obtain ⟨-, -, hget⟩ := addNoise_max_fold rng buf n
    have h := hget i
    rw [if_pos ⟨hin, hib⟩] at h
    rw [addNoise, h]
    refine ⟨rfl, ?_, ?_, ?_⟩ <;> simp only [Rgb565.new] <;> omega

/-- The identity stream used by the C5 witness. -/
def noiseRngW : Nat → Nat := fun k => k

/-- Witness for C5 on a one-pixel buffer: Intensity 0 leaves it unchanged;
Intensity 128 replaces pixel 0 with the color built from draws 1, 2, 3. -/
theorem addNoise_extremes_witness :
    addNoise 1 [⟨1, 2, 3⟩] noiseRngW (Intensity.fromNat 0) = [⟨1, 2, 3⟩] ∧
    (addNoise 1 [⟨1, 2, 3⟩] noiseRngW (Intensity.fromNat 128)).getD 0 default
      = Rgb565.new (nextU32 noiseRngW 1 % 32) (nextU32 noiseRngW 2 % 64)
          (nextU32 noiseRngW 3 % 32) :=
  ⟨(addNoise_extremes 1 [⟨1, 2, 3⟩] noiseRngW).1,
   ((addNoise_extremes 1 [⟨1, 2, 3⟩] noiseRngW).2 0 (by decide) (by decide)).1⟩

/-- C9: `Brightness::from` clamps: negative inputs yield 0, inputs above 1
yield 1, inputs already in `[0,1]` are unchanged, and the stored value always
lies in `[0,1]` (the f32 is modelled as a rational). -/
theorem brightness_fromFloat_clamps (x : ℚ) :
    (x < 0 → Brightness.fromFloat x = ⟨0⟩) ∧
    (x > 1 → Brightness.fromFloat x = ⟨1⟩) ∧
    (0 ≤ x → x ≤ 1 → Brightness.fromFloat x = ⟨x⟩) ∧
    0 ≤ (Brightness.fromFloat x).val ∧ (Brightness.fromFloat x).val ≤ 1 := by
  refine ⟨?_, ?_, ?_, ?_, ?_⟩ <;>
    simp only [Brightness.fromFloat, ratClamp]
  · intro h; rw [if_pos h]
  · intro h; rw [if_neg (by linarith), if_pos h]
  · intro h0 h1; rw [if_neg (by linarith), if_neg (by linarith)]
  · split_ifs <;> linarith
  · split_ifs <;> linarith

/-- Witness for C9 at `-2`, `2` and `1/2`. -/
theorem brightness_fromFloat_clamps_witness :
    Brightness.fromFloat (-2) = ⟨0⟩ ∧
    Brightness.fromFloat 2 = ⟨1⟩ ∧
    Brightness.fromFloat (1 / 2) = ⟨1 / 2⟩ :=
  ⟨(brightness_fromFloat_clamps (-2)).1 (by norm_num),
   (brightness_fromFloat_clamps 2).2.1 (by norm_num),
   (brightness_fromFloat_clamps (1 / 2)).2.2.1 (by norm_num) (by norm_num)⟩

end EvilAndroid
